import Mathlib

/-!
Verification development for the query-rewriting core of qserv
(src/python/lsst/qserv/master/sqlparser.py).

The source builds a pyparsing grammar (class Grammar) whose parse results
are nested ParseResults of string tokens, with three parse actions
attached: the where-leaf hook list (whereExpAction, holding onlyStatic in
computePartMapQuery and nothing in computeChunkQuery), scWhere on every
whereExpression, and collapseWhere on the whereClause.  The table-name
hook list (tableAction) holds replaceObj in computeChunkQuery and nothing
in computePartMapQuery.

We embed ParseResults as the tree type Tok below.  A Group's element
sequence is encoded with the dedicated Tok.nil / Tok.cons constructors
(rather than a nested List Tok) so that every function on trees is
plainly structurally recursive and hence computes inside the kernel;
grpL and chainToList mediate between the encoding and ordinary lists,
and top-level token sequences are ordinary List Tok values.

Table-name tokens are wrapped in the constructor Tok.tbl: in the source
the tableAction hook runs on them while parsing, but its output never
influences any parsing decision (the only token-inspecting actions are
scWhere, collapseWhere and onlyStatic; scWhere and collapseWhere compare
a whereExpression element against the string "TRUE" or the one-string
group ["TRUE"], and an element containing table tokens is a FROM-list
Group nested inside a condition Group, which those comparisons never
reach; onlyStatic's filter fails on any nested Group before table-token
values could matter).  So applying the table hook as a tree map after
parsing is observationally identical, and the tbl wrapper records exactly
the positions where the hook applies.  flattenTok treats the wrapper as
the plain spliced string tokens, as QueryMunger._flatten does.
-/

namespace Sqlparser

/-- A pyparsing ParseResults tree: a string token, the tokens contributed
by one tableName match, or a Group whose element sequence is encoded by
the nil/cons constructors (see module comment). -/
inductive Tok where
  | str : String → Tok
  | tbl : List String → Tok
  | nil : Tok
  | cons : Tok → Tok → Tok
  | grp : Tok → Tok
deriving DecidableEq, Repr

/-- Encode a list of elements as a Group-content chain. -/
def listToChain : List Tok → Tok
  | [] => .nil
  | t :: rest => .cons t (listToChain rest)

/-- A Group with the given elements. -/
def grpL (xs : List Tok) : Tok := .grp (listToChain xs)

/-- Decode a Group-content chain back to a list (a non-chain argument,
which the parser never produces, decodes to []). -/
def chainToList : Tok → List Tok
  | .cons a rest => a :: chainToList rest
  | _ => []

/-- Python str.upper() on the ASCII token texts of this grammar, defined
character-wise (String.toUpper itself does not compute in the kernel). -/
def upStr (s : String) : String := String.mk (s.data.map Char.toUpper)

/-- Python " ".join. -/
def joinSp : List String → String
  | [] => ""
  | [s] => s
  | s :: rest => s ++ " " ++ joinSp rest

/-- QueryMunger._flatten on one ParseResults element: a string flattens
to itself, a list to the space-join of its parts. -/
def flattenTok : Tok → String
  | .str s => s
  | .tbl ls => joinSp ls
  | .nil => ""
  | .cons a .nil => flattenTok a
  | .cons a rest => flattenTok a ++ " " ++ flattenTok rest
  | .grp c => flattenTok c

/-- QueryMunger._flatten on a token sequence. -/
def flattenList : List Tok → String
  | [] => ""
  | [t] => flattenTok t
  | t :: rest => flattenTok t ++ " " ++ flattenList rest

/-- Apply a tableAction hook to every tableName contribution (the
post-parse form of the in-parse hook; see module comment). -/
def applyTbl (f : List String → List String) : Tok → Tok
  | .str s => .str s
  | .tbl ls => .tbl (f ls)
  | .nil => .nil
  | .cons a rest => .cons (applyTbl f a) (applyTbl f rest)
  | .grp c => .grp (applyTbl f c)

/-- applyTbl over a token sequence. -/
def applyTblL (f : List String → List String) (xs : List Tok) : List Tok :=
  xs.map (applyTbl f)

/-! ### The parse-time where-reduction actions -/

/-- The sentinel a where-leaf becomes when onlyStatic replaces it.
scWhere tests an element with `str(tok[i]) in ["TRUE", str(["TRUE"])]`;
a token string can never contain a bracket, so the test is equivalent to
the element being the plain string "TRUE" or the one-string group. -/
def isTrueTok (t : Tok) : Bool :=
  t == Tok.str "TRUE" || t == grpL [Tok.str "TRUE"]

/-- `str(tok[j]).upper() == s` for a keyword candidate: the str() of a
Group begins with a bracket, so only a plain string token can match. -/
def tokUpperIs (s : String) (t : Tok) : Bool :=
  match t with
  | .str x => upStr x == s
  | _ => false

/-- The body of scWhere's while loop (Grammar.__init__ in the source):
walks the whereExpression tokens, dropping a "TRUE"-marked condition
together with a following AND; the `tok[i+i]` index (as written in the
source) can fall outside the list, which raises IndexError — modelled as
none.  `some acc` on the break path returns the tokens copied so far. -/
def scWhereGo (tok : List Tok) : Nat → Nat → List Tok → Option (List Tok)
  | 0, _, _ => none
  | f + 1, i, acc =>
    if h : i < tok.length then
      let t := tok.get ⟨i, h⟩
      if isTrueTok t then
        if h2 : i + 1 < tok.length then
          if tokUpperIs "AND" (tok.get ⟨i + 1, h2⟩) then
            scWhereGo tok f (i + 2) acc
          else
            match tok.get? (i + i) with
            | none => none
            | some u =>
              if tokUpperIs "OR" u then some acc
              else scWhereGo tok f (i + 1) (acc ++ [t])
        else scWhereGo tok f (i + 1) (acc ++ [t])
      else scWhereGo tok f (i + 1) (acc ++ [t])
    else some acc

/-- scWhere, the parse action attached to whereExpression. -/
def scWhere (tok : List Tok) : Option (List Tok) :=
  scWhereGo tok (tok.length + 1) 0 []

/-- collapseWhere, the parse action attached to whereClause: receives the
Group of (where-keyword :: expression tokens); if the first condition is
the "TRUE" group the whole clause is dropped.  `tok.asList()[0][1]` on an
empty expression would raise IndexError — modelled as none (unreachable:
whereExpression always yields at least one condition). -/
def collapseWhere (exprToks : List Tok) : Option (List Tok) :=
  match exprToks with
  | [] => none
  | c0 :: _ =>
    if c0 == grpL [Tok.str "TRUE"] then some []
    else some [grpL (Tok.str "where" :: exprToks)]

/-! ### onlyStatic, the where-leaf hook used by computePartMapQuery -/

/-- pVariables in computePartMapQuery. -/
def pVariables : List String := ["RA", "DECL"]

/-- The element sequence Python's filter iterates over: our tbl wrapper
stands for its spliced string tokens. -/
def condElems : List Tok → List Tok
  | [] => []
  | .tbl ls :: rest => ls.map Tok.str ++ condElems rest
  | t :: rest => t :: condElems rest

/-- partMapCares(token): `token.upper() in pVariables`.  A ParseResults
element has no .upper, so a Group raises AttributeError — modelled none. -/
def partMapCares (pv : List String) (t : Tok) : Option Bool :=
  match t with
  | .str s => some (pv.contains (upStr s))
  | _ => none

/-- Python's eager filter: evaluates the predicate on every element, an
exception anywhere aborts. -/
def pyFilter (p : Tok → Option Bool) : List Tok → Option (List Tok)
  | [] => some []
  | t :: rest =>
    match p t, pyFilter p rest with
    | some b, some kept => some (if b then t :: kept else kept)
    | _, _ => none

/-- onlyStatic (defined inside computePartMapQuery), generalized over the
relevant-column set: if no token of the flat condition passes partMapCares,
the condition is replaced by the plain string "TRUE". -/
def onlyStaticH (pv : List String) : List Tok → Option (List Tok)
  | [Tok.grp cond] =>
    match pyFilter (partMapCares pv) (condElems (chainToList cond)) with
    | none => none
    | some kept =>
      if kept.isEmpty then some [Tok.str "TRUE"] else some [Tok.grp cond]
  | _ => none

/-- The hook as computePartMapQuery installs it. -/
def onlyStatic : List Tok → Option (List Tok) := onlyStaticH pVariables

/-- The empty whereExpAction list of computeChunkQuery (actionWrapper of an
empty list returns its tokens unchanged). -/
def idWhereHook : List Tok → Option (List Tok) := fun ts => some ts

/-! ### Scannerless matching primitives

pyparsing skips whitespace (and the registered `--` line comment) before
each leaf expression; Keyword additionally checks that the characters just
before and just after the match are not identifier characters.  We model
the input position as the remaining characters plus the previously
consumed character (needed only for that Keyword check). -/

/-- Remaining input and the character just before it (none at offset 0). -/
structure PState where
  rest : List Char
  prev : Option Char
deriving Repr, DecidableEq

/-- pyparsing's default whitespace characters. -/
def isWsChar (c : Char) : Bool :=
  c == ' ' || c == '\t' || c == '\n' || c == '\r'

/-- Identifier characters of the grammar (alphanums + "_$"), also the
boundary-check character class of Keyword. -/
def isIdentChar (c : Char) : Bool :=
  c.isAlphanum || c == '_' || c == '$'

/-- restOfLine: drop up to (but not including) the next newline. -/
def dropToNl : List Char → List Char
  | [] => []
  | c :: cs => if c == '\n' then c :: cs else dropToNl cs

/-- Skip whitespace and `--` line comments (simpleSQL.ignore). -/
def skipA : Nat → List Char → Option Char → List Char × Option Char
  | 0, l, p => (l, p)
  | _ + 1, [], p => ([], p)
  | n + 1, c :: cs, p =>
    if isWsChar c then skipA n cs (some c)
    else if c == '-' && cs.head? == some '-' then
      skipA n (dropToNl cs.tail) (some '-')
    else (c :: cs, p)

/-- Advance a state past ignorable text. -/
def skipWS (st : PState) : PState :=
  let r := skipA st.rest.length st.rest st.prev
  ⟨r.1, r.2⟩

/-- Consume the exact characters of `s` (no case folding), recording the
last consumed character. -/
def eatChars : List Char → PState → Option PState
  | [], st => some st
  | c :: cs, st =>
    match st.rest with
    | [] => none
    | r :: rs => if r == c then eatChars cs ⟨rs, some r⟩ else none

/-- Consume the characters of `s` case-insensitively. -/
def eatCharsCaseless : List Char → PState → Option PState
  | [], st => some st
  | c :: cs, st =>
    match st.rest with
    | [] => none
    | r :: rs =>
      if r.toLower == c.toLower then eatCharsCaseless cs ⟨rs, some r⟩ else none

/-- Literal(s): skip ignorables, match the text exactly, token is `s`. -/
def pLit (s : String) (st : PState) : Option (String × PState) :=
  (eatChars s.data (skipWS st)).map (fun st2 => (s, st2))

/-- CaselessLiteral(s): match caselessly, token is the defined text. -/
def pCaselessLit (s : String) (st : PState) : Option (String × PState) :=
  (eatCharsCaseless s.data (skipWS st)).map (fun st2 => (s, st2))

/-- Keyword(s, caseless=True): caseless match with identifier-character
boundary checks on both sides; token is the defined text. -/
def pKeyword (s : String) (st : PState) : Option (String × PState) :=
  let st1 := skipWS st
  match st1.prev with
  | some c =>
    if isIdentChar c then none
    else
      match eatCharsCaseless s.data st1 with
      | none => none
      | some st2 =>
        match st2.rest with
        | [] => some (s, st2)
        | c2 :: _ => if isIdentChar c2 then none else some (s, st2)
  | none =>
    match eatCharsCaseless s.data st1 with
    | none => none
    | some st2 =>
      match st2.rest with
      | [] => some (s, st2)
      | c2 :: _ => if isIdentChar c2 then none else some (s, st2)

/-- Greedily take characters satisfying `p`. -/
def takeWhileCh (p : Char → Bool) : List Char → List Char × List Char
  | [] => ([], [])
  | c :: cs =>
    if p c then
      let r := takeWhileCh p cs
      (c :: r.1, r.2)
    else ([], c :: cs)

/-- Word(alphas, alphanums + "_$"): an identifier. -/
def pIdent (st : PState) : Option (String × PState) :=
  let st1 := skipWS st
  match st1.rest with
  | [] => none
  | c :: cs =>
    if c.isAlpha then
      let r := takeWhileCh isIdentChar cs
      some (String.mk (c :: r.1), ⟨r.2, some ((c :: r.1).getLast (by simp))⟩)
    else none

/-- delimitedList(ident, ".", combine=True): dotted name combined into one
token; Combine demands adjacency, so no whitespace around the dots. -/
def pColumnNameGo : Nat → String → PState → String × PState
  | 0, acc, st => (acc, st)
  | n + 1, acc, st =>
    match st.rest with
    | '.' :: cs =>
      match pIdentNoSkip cs with
      | some (w, rest2, last2) => pColumnNameGo n (acc ++ "." ++ w) ⟨rest2, some last2⟩
      | none => (acc, st)
    | _ => (acc, st)
where
  /-- An identifier right at the current character (no skipping). -/
  pIdentNoSkip : List Char → Option (String × List Char × Char)
  | [] => none
  | c :: cs =>
    if c.isAlpha then
      let r := takeWhileCh isIdentChar cs
      some (String.mk (c :: r.1), r.2, (c :: r.1).getLast (by simp))
    else none

/-- columnName / tableName text: ident ("." ident)*, combined. -/
def pColumnName (st : PState) : Option (String × PState) :=
  match pIdent st with
  | none => none
  | some (w, st1) =>
    let r := pColumnNameGo st1.rest.length w st1
    some r

/-- realNum (Combine of sign?, digits "." digits? or "." digits, and an
optional caseless exponent whose E is canonicalized to "E" by
CaselessLiteral); adjacency is required inside a Combine. -/
def pRealNum (st : PState) : Option (String × PState) :=
  let st1 := skipWS st
  let (sgn, r1) :=
    match st1.rest with
    | c :: cs => if c == '+' || c == '-' then ([c], cs) else (([] : List Char), st1.rest)
    | [] => (([] : List Char), st1.rest)
  let (ds, r2) := takeWhileCh Char.isDigit r1
  let body : Option (List Char × List Char) :=
    if ds.isEmpty then
      match r1 with
      | '.' :: cs =>
        let (ds2, r3) := takeWhileCh Char.isDigit cs
        if ds2.isEmpty then none else some ('.' :: ds2, r3)
      | _ => none
    else
      match r2 with
      | '.' :: cs =>
        let (ds2, r3) := takeWhileCh Char.isDigit cs
        some (ds ++ '.' :: ds2, r3)
      | _ => none
  match body with
  | none => none
  | some (bd, r3) =>
    let (ex, r4) :=
      match r3 with
      | c :: cs =>
        if c == 'e' || c == 'E' then
          let (es, cs2) :=
            match cs with
            | d :: dsx =>
              if d == '+' || d == '-' then (([d] : List Char), dsx)
              else (([] : List Char), cs)
            | [] => (([] : List Char), cs)
          let (ds3, r5) := takeWhileCh Char.isDigit cs2
          if ds3.isEmpty then (([] : List Char), r3)
          else ('E' :: (es ++ ds3), r5)
        else (([] : List Char), r3)
      | [] => (([] : List Char), r3)
    let tokChars := sgn ++ bd ++ ex
    some (String.mk tokChars, ⟨r4, tokChars.getLast?⟩)

/-- intNum (Combine of sign?, digits, optional exponent with only "+"
allowed as the exponent sign). -/
def pIntNum (st : PState) : Option (String × PState) :=
  let st1 := skipWS st
  let (sgn, r1) :=
    match st1.rest with
    | c :: cs => if c == '+' || c == '-' then ([c], cs) else (([] : List Char), st1.rest)
    | [] => (([] : List Char), st1.rest)
  let (ds, r2) := takeWhileCh Char.isDigit r1
  if ds.isEmpty then none
  else
    let (ex, r4) :=
      match r2 with
      | c :: cs =>
        if c == 'e' || c == 'E' then
          let (es, cs2) :=
            match cs with
            | d :: dsx => if d == '+' then ((['+'] : List Char), dsx) else (([] : List Char), cs)
            | [] => (([] : List Char), cs)
          let (ds3, r5) := takeWhileCh Char.isDigit cs2
          if ds3.isEmpty then (([] : List Char), r2)
          else ('E' :: (es ++ ds3), r5)
        else (([] : List Char), r2)
      | [] => (([] : List Char), r2)
    let tokChars := sgn ++ ds ++ ex
    some (String.mk tokChars, ⟨r4, tokChars.getLast?⟩)

/-- Scan a quoted-string body: pyparsing's quotedString admits a doubled
quote, a backslash-escaped character, and any character other than the
quote, a newline or a backslash; the token keeps its quotes. -/
def scanQuoted (q : Char) : Nat → List Char → List Char → Option (List Char × List Char)
  | 0, _, _ => none
  | _ + 1, _, [] => none
  | n + 1, acc, c :: cs =>
    if c == q then
      match cs with
      | c2 :: cs2 =>
        if c2 == q then scanQuoted q n (acc ++ [c, c2]) cs2
        else some (acc ++ [c], c2 :: cs2)
      | [] => some (acc ++ [c], [])
    else if c == '\\' then
      match cs with
      | c2 :: cs2 => scanQuoted q n (acc ++ [c, c2]) cs2
      | [] => none
    else if c == '\n' || c == '\r' then none
    else scanQuoted q n (acc ++ [c]) cs

/-- quotedString (single or double quotes). -/
def pQuotedString (st : PState) : Option (String × PState) :=
  let st1 := skipWS st
  match st1.rest with
  | c :: cs =>
    if c == '\'' || c == '"' then
      match scanQuoted c (cs.length + 1) [c] cs with
      | some (tokChars, r) => some (String.mk tokChars, ⟨r, some c⟩)
      | none => none
    else none
  | [] => none

/-- oneOf "= != < > >= <= eq ne lt le gt ge" (caseless): the two-character
symbols are tried before their one-character prefixes, and the letter forms
match caselessly, yielding the defined (lower-case) text. -/
def pBinop (st : PState) : Option (String × PState) :=
  (pLit "!=" st) <|> (pLit ">=" st) <|> (pLit "<=" st) <|>
  (pLit "=" st) <|> (pLit "<" st) <|> (pLit ">" st) <|>
  (pCaselessLit "eq" st) <|> (pCaselessLit "ne" st) <|>
  (pCaselessLit "lt" st) <|> (pCaselessLit "le" st) <|>
  (pCaselessLit "gt" st) <|> (pCaselessLit "ge" st)

/-- columnRval = realNum | intNum | quotedString | columnName. -/
def pColumnRval (st : PState) : Option (String × PState) :=
  (pRealNum st) <|> (pIntNum st) <|> (pQuotedString st) <|> (pColumnName st)

/-! ### The non-recursive grammar productions -/

/-- The tail of delimitedList(columnName): ZeroOrMore("," columnName) with
the delimiter suppressed; if the comma matches but the element does not,
the iteration fails and the list stops before the comma. -/
def pDelimColsGo : Nat → List Tok → PState → List Tok × PState
  | 0, acc, st => (acc, st)
  | n + 1, acc, st =>
    match pLit "," st with
    | none => (acc, st)
    | some (_, st1) =>
      match pColumnName st1 with
      | none => (acc, st)
      | some (w, st2) => pDelimColsGo n (acc ++ [Tok.str w]) st2

/-- columnNameList = Group(delimitedList(columnName)). -/
def pColumnNameList (st : PState) : Option (Tok × PState) :=
  match pColumnName st with
  | none => none
  | some (w, st1) =>
    let r := pDelimColsGo st1.rest.length [Tok.str w] st1
    some (grpL r.1, r.2)

/-- functionExpr = ident + "(" + columnNameList + ")". -/
def pFunctionExpr (st : PState) : Option (List Tok × PState) := do
  let (idw, st1) ← pIdent st
  let (_, st2) ← pLit "(" st1
  let (cols, st3) ← pColumnNameList st2
  let (_, st4) ← pLit ")" st3
  pure ([Tok.str idw, Tok.str "(", cols, Tok.str ")"], st4)

/-- numPrimary = functionExpr | columnRef; the term/numericExpr Forwards of
the source are never assigned with <<, so their recursive alternatives can
never match and valueExpr is exactly this with an optional sign. -/
def pNumPrimary (st : PState) : Option (List Tok × PState) :=
  (pFunctionExpr st) <|>
  ((pColumnName st).map (fun r => ([Tok.str r.1], r.2)))

/-- factor = Optional("+" | "-") + numPrimary; when a sign is taken the
primary must follow (an And does not backtrack over its own parts). -/
def pFactor (st : PState) : Option (List Tok × PState) :=
  match (pLit "+" st) <|> (pLit "-" st) with
  | some (sg, st1) =>
    match pNumPrimary st1 with
    | some (ts, st2) => some (Tok.str sg :: ts, st2)
    | none => none
  | none => pNumPrimary st

/-- derivedColumn = valueExpr + Optional(asToken + alias). -/
def pDerivedColumn (st : PState) : Option (List Tok × PState) :=
  match pFactor st with
  | none => none
  | some (ts, st1) =>
    match (do
      let (_, st2) ← pKeyword "as" st1
      let (al, st3) ← pIdent st2
      pure (st3, al)) with
    | some (st3, al) => some (ts ++ [Tok.str "as", Tok.str al], st3)
    | none => some (ts, st1)

/-- The tail of selectSubList = delimitedList(derivedColumn). -/
def pDelimDerivedGo : Nat → List Tok → PState → List Tok × PState
  | 0, acc, st => (acc, st)
  | n + 1, acc, st =>
    match pLit "," st with
    | none => (acc, st)
    | some (_, st1) =>
      match pDerivedColumn st1 with
      | none => (acc, st)
      | some (ts, st2) => pDelimDerivedGo n (acc ++ ts) st2

/-- selectPart = Keyword select + ("*" | selectSubList). -/
def pSelectPart (st : PState) : Option (List Tok × PState) := do
  let (_, st1) ← pKeyword "select" st
  match pLit "*" st1 with
  | some (_, st2) => pure ([Tok.str "select", Tok.str "*"], st2)
  | none =>
    match pDerivedColumn st1 with
    | none => none
    | some (ts, st2) =>
      let r := pDelimDerivedGo st2.rest.length ts st2
      pure (Tok.str "select" :: r.1, r.2)

/-- genericTableName = (tableAlias | tableName); a tableName contribution
is wrapped as Tok.tbl (the point where the tableAction hook applies). -/
def pGenericTableName (st : PState) : Option (List Tok × PState) :=
  (do
    let (t, st1) ← pColumnName st
    let (_, st2) ← pKeyword "as" st1
    let (al, st3) ← pIdent st2
    pure ([Tok.tbl [t], Tok.str "as", Tok.str al], st3))
  <|>
  ((pColumnName st).map (fun r => ([Tok.tbl [r.1]], r.2)))

/-- The tail of delimitedList(genericTableName). -/
def pDelimTablesGo : Nat → List Tok → PState → List Tok × PState
  | 0, acc, st => (acc, st)
  | n + 1, acc, st =>
    match pLit "," st with
    | none => (acc, st)
    | some (_, st1) =>
      match pGenericTableName st1 with
      | none => (acc, st)
      | some (ts, st2) => pDelimTablesGo n (acc ++ ts) st2

/-- tableNameList = Group(delimitedList(genericTableName)). -/
def pTableNameList (st : PState) : Option (Tok × PState) :=
  match pGenericTableName st with
  | none => none
  | some (ts, st1) =>
    let r := pDelimTablesGo st1.rest.length ts st1
    some (grpL r.1, r.2)

/-- The tail of delimitedList(columnRval) in the IN-list leaf. -/
def pDelimRvalsGo : Nat → List Tok → PState → List Tok × PState
  | 0, acc, st => (acc, st)
  | n + 1, acc, st =>
    match pLit "," st with
    | none => (acc, st)
    | some (_, st1) =>
      match pColumnRval st1 with
      | none => (acc, st)
      | some (w, st2) => pDelimRvalsGo n (acc ++ [Tok.str w]) st2

/-! ### The recursive knot

selectStmt, whereClause, whereExpression, whereCondition and the flat
where-leaf refer to one another (parenthesised conditions and IN
subqueries), so they are merged into the single fuel-recursive function
runP below, selected by PKind; the top-level entry points supply fuel
well beyond the input length (each recursive descent first consumes at
least one character).  `wh` is the whereExpAction hook (onlyStatic in
computePartMapQuery, the identity in computeChunkQuery).  The uniform
result is (tokens, whereClause contribution, rest); the middle component
is only meaningful for PKind.stmt, and the List Tok argument is the
accumulator of the PKind.chain loop.

One modelling note: a Python-level exception raised inside a parse
action (onlyStatic's AttributeError, scWhere's IndexError) propagates
out of pyparsing instead of backtracking, while this model returns none
and lets an enclosing alternative try the next branch.  For the two
entry points embedded here the difference is unobservable: with the
identity hook no TRUE marker ever exists, so scWhere cannot raise; with
onlyStatic, the only alternatives reachable after such a failure need a
"(" or an "or" keyword at a position that just matched an identifier or
an "and", and computePartMapQuery parses with parseAll, rejecting any
shortened prefix parse. -/

/-- Selector for the productions of the recursive knot. -/
inductive PKind where
  | flatRaw
  | flat
  | cond
  | chain
  | expr
  | clause
  | stmt
deriving DecidableEq, Repr

/-- The mutually recursive productions, one fuel-recursive function.
flatRaw: the four alternatives of whereConditionFlat (col binop rval,
col IN (rvals), col IN (subselect), col BETWEEN rval AND rval) before
grouping; flat: its Group plus the where-leaf hook; cond: whereCondition
= Group(flat | "(" expr ")"); chain: ZeroOrMore(andExpr | orExpr);
expr: whereExpression with the scWhere action; clause: whereClause with
the collapseWhere action; stmt: selectStmt. -/
def runP (wh : List Tok → Option (List Tok)) :
    Nat → PKind → PState → List Tok → Option (List Tok × List Tok × PState)
  | 0, _, _, _ => none
  | n + 1, .flatRaw, st, _ =>
    (do
      let (c, st1) ← pColumnName st
      let (op, st2) ← pBinop st1
      let (v, st3) ← pColumnRval st2
      pure ([Tok.str c, Tok.str op, Tok.str v], ([] : List Tok), st3))
    <|>
    (do
      let (c, st1) ← pColumnName st
      let (_, st2) ← pKeyword "in" st1
      let (_, st3) ← pLit "(" st2
      let (v, st4) ← pColumnRval st3
      let r := pDelimRvalsGo st4.rest.length [Tok.str v] st4
      let (_, st5) ← pLit ")" r.2
      pure ([Tok.str c, Tok.str "in", Tok.str "("] ++ r.1 ++ [Tok.str ")"],
        ([] : List Tok), st5))
    <|>
    (do
      let (c, st1) ← pColumnName st
      let (_, st2) ← pKeyword "in" st1
      let (_, st3) ← pLit "(" st2
      let (ts, _, st4) ← runP wh n .stmt st3 []
      let (_, st5) ← pLit ")" st4
      pure ([Tok.str c, Tok.str "in", Tok.str "("] ++ ts ++ [Tok.str ")"],
        ([] : List Tok), st5))
    <|>
    (do
      let (c, st1) ← pColumnName st
      let (_, st2) ← pKeyword "between" st1
      let (lo, st3) ← pColumnRval st2
      let (_, st4) ← pKeyword "and" st3
      let (hi, st5) ← pColumnRval st4
      pure ([Tok.str c, Tok.str "between", Tok.str lo, Tok.str "and", Tok.str hi],
        ([] : List Tok), st5))
  | n + 1, .flat, st, _ => do
    let (ts, _, st1) ← runP wh n .flatRaw st []
    let hooked ← wh [grpL ts]
    pure (hooked, [], st1)
  | n + 1, .cond, st, _ =>
    match runP wh n .flat st [] with
    | some (ts, _, st1) => some ([grpL ts], [], st1)
    | none => do
      let (_, st1) ← pLit "(" st
      let (toks, _, st2) ← runP wh n .expr st1 []
      let (_, st3) ← pLit ")" st2
      pure ([grpL (Tok.str "(" :: toks ++ [Tok.str ")"])], [], st3)
  | n + 1, .chain, st, acc =>
    match pKeyword "and" st with
    | some (_, st1) =>
      match runP wh n .expr st1 [] with
      | some (toks, _, st2) => runP wh n .chain st2 (acc ++ (Tok.str "and" :: toks))
      | none =>
        match pKeyword "or" st with
        | some (_, st1b) =>
          match runP wh n .expr st1b [] with
          | some (toks, _, st2) => runP wh n .chain st2 (acc ++ (Tok.str "or" :: toks))
          | none => some (acc, [], st)
        | none => some (acc, [], st)
    | none =>
      match pKeyword "or" st with
      | some (_, st1b) =>
        match runP wh n .expr st1b [] with
        | some (toks, _, st2) => runP wh n .chain st2 (acc ++ (Tok.str "or" :: toks))
        | none => some (acc, [], st)
      | none => some (acc, [], st)
  | n + 1, .expr, st, _ => do
    let (cs, _, st1) ← runP wh n .cond st []
    let (chainToks, _, st2) ← runP wh n .chain st1 []
    let reduced ← scWhere (cs ++ chainToks)
    pure (reduced, [], st2)
  | n + 1, .clause, st, _ => do
    let (_, st1) ← pKeyword "where" st
    let (ets, _, st2) ← runP wh n .expr st1 []
    let collapsed ← collapseWhere ets
    pure (collapsed, [], st2)
  | n + 1, .stmt, st, _ => do
    let (selToks, st1) ← pSelectPart st
    let (_, st2) ← pKeyword "from" st1
    let (tgrp, st3) ← pTableNameList st2
    let (wToks, _, st4) ← runP wh n .clause st3 []
    pure (selToks ++ [Tok.str "from", tgrp] ++ wToks, wToks, st4)

/-- selectStmt: token list plus the whereClause contribution (the
results-name "where" of the source). -/
def pSelectStmt (wh : List Tok → Option (List Tok)) (fuel : Nat) (st : PState) :
    Option (List Tok × List Tok × PState) :=
  runP wh fuel .stmt st []

/-- simpleSQL = selectStmt + semicolon. -/
def pSimpleSQL (wh : List Tok → Option (List Tok)) (fuel : Nat) (st : PState) :
    Option (List Tok × List Tok × PState) := do
  let (toks, wv, st1) ← pSelectStmt wh fuel st
  let (_, st2) ← pLit ";" st1
  pure (toks ++ [Tok.str ";"], wv, st2)

/-- Initial parser state for an input string. -/
def initState (q : String) : PState := ⟨q.data, none⟩

/-- Ample fuel: every recursive descent into the knot first consumes at
least one character, and a chain through the productions costs a bounded
number of fuel units per character consumed. -/
def fuelFor (q : String) : Nat := (q.length + 8) * 8

/-! ### QueryMunger -/

/-- Python ", ".join. -/
def joinComma : List String → String
  | [] => ""
  | [s] => s
  | s :: rest => s ++ ", " ++ joinComma rest

/-- Python "\n".join. -/
def joinNl : List String → String
  | [] => ""
  | [s] => s
  | s :: rest => s ++ "\n" ++ joinNl rest

/-- QueryMunger.convertBetween: unpacks (col, _, cmin, _, cmax) — any
other token count raises a ValueError, modelled none — and renders the
3-way overlap disjunction (cmin-test first, as written in the source). -/
def convertBetween : List String → Option String
  | [col, _, cmin, _, cmax] =>
    some ("(" ++
      cmin ++ " between " ++ col ++ "min and " ++ col ++ "max" ++ " OR " ++
      cmax ++ " between " ++ col ++ "min and " ++ col ++ "max" ++ " OR " ++
      col ++ "min between " ++ cmin ++ " and " ++ cmax ++ ")")
  | _ => none

/-- replaceObj (defined inside computeChunkQuery): rewrite every
tableName token that spells "object" case-insensitively into the
string.Template placeholder form. -/
def replaceObjHook (ls : List String) : List String :=
  ls.map (fun t =>
    if upStr t == "OBJECT" then "Subchunks_${subc}.Object_${chunk}_${subc}" else t)

/-- Start of a Python string.Template identifier ([_a-z], IGNORECASE). -/
def isTemplIdStart (c : Char) : Bool := c.isAlpha || c == '_'

/-- Later characters of a Template identifier ([_a-z0-9], IGNORECASE). -/
def isTemplIdChar (c : Char) : Bool := c.isAlpha || c.isDigit || c == '_'

/-- string.Template(...).substitute with mapping
(chunk ↦ chunkS, subc ↦ subcS): "$$" is a literal dollar, "$name" and
"$\x7bname\x7d" are placeholders; an unknown name raises KeyError and a
dollar not starting a placeholder raises ValueError — both modelled as
none. -/
def substTemplate (chunkS subcS : String) : Nat → List Char → Option (List Char)
  | 0, _ => none
  | _ + 1, [] => some []
  | fuel + 1, c :: cs =>
    if c == '$' then
      match cs with
      | '$' :: cs2 => (substTemplate chunkS subcS fuel cs2).map (fun r => '$' :: r)
      | '{' :: cs2 =>
        match cs2 with
        | d :: ds =>
          if isTemplIdStart d then
            let r := takeWhileCh isTemplIdChar ds
            match r.2 with
            | '}' :: cs3 =>
              let name := String.mk (d :: r.1)
              if name == "chunk" then
                (substTemplate chunkS subcS fuel cs3).map (fun t => chunkS.data ++ t)
              else if name == "subc" then
                (substTemplate chunkS subcS fuel cs3).map (fun t => subcS.data ++ t)
              else none
            | _ => none
          else none
        | [] => none
      | d :: ds =>
        if isTemplIdStart d then
          let r := takeWhileCh isTemplIdChar ds
          let name := String.mk (d :: r.1)
          if name == "chunk" then
            (substTemplate chunkS subcS fuel r.2).map (fun t => chunkS.data ++ t)
          else if name == "subc" then
            (substTemplate chunkS subcS fuel r.2).map (fun t => subcS.data ++ t)
          else none
        else none
      | [] => none
    else (substTemplate chunkS subcS fuel cs).map (fun r => c :: r)

/-- Template.substitute on the flattened statement for one subchunk. -/
def substituteFor (chunk s : Nat) (template : String) : Option String :=
  (substTemplate (toString chunk) (toString s) (template.length + 1) template.data).map
    String.mk

/-- QueryMunger.computeChunkQuery: parse with replaceObj as the only
tableAction (whereExpAction is empty), flatten, append ";", render the
header and one substituted statement per subchunk.  parseString is called
without parseAll, so trailing input is ignored; a parse or substitution
failure (ParseException, IndexError, KeyError/ValueError) yields none. -/
def computeChunkQuery (chunk : Nat) (sublist : List Nat) (query : String) :
    Option String :=
  match pSimpleSQL idWhereHook (fuelFor query) (initState query) with
  | none => none
  | some (toks, _, _) =>
    let rewritten := applyTblL replaceObjHook toks
    let template := flattenList rewritten ++ ";"
    let header := "-- SUBCHUNKS:" ++ joinComma (sublist.map toString)
    match sublist.mapM (fun s => substituteFor chunk s template) with
    | none => none
    | some qs => some (joinNl (header :: qs))

/-- One step of collectSubChunkTuples' loop: `d[chunk].append(subchunk)`
on a defaultdict(list), modelled on an association list.  The list's
internal order is bookkeeping only: the dict is observed through lookupA
(faithful to d[k]) and, for key iteration, through pyDictIterKeys below
(faithful to the Python 2 dict, whose key order is a hash artifact and
NOT insertion order). -/
def addPair : List (Nat × List Nat) → Nat → Nat → List (Nat × List Nat)
  | [], c, s => [(c, [s])]
  | (k, l) :: rest, c, s =>
    if k == c then (k, l ++ [s]) :: rest else (k, l) :: addPair rest c s

/-- QueryMunger.collectSubChunkTuples. -/
def collectSubChunkTuples (chunktuples : List (Nat × Nat)) : List (Nat × List Nat) :=
  chunktuples.foldl (fun d p => addPair d p.1 p.2) []

/-- Dictionary lookup on the association-list model. -/
def lookupA : List (Nat × List Nat) → Nat → Option (List Nat)
  | [], _ => none
  | (k, l) :: rest, c => if k == c then some l else lookupA rest c

/-- Modelled from the CPython 2 runtime: the key iteration order of the
returned dict.  A small dict has eight hash slots, an int key hashes to
itself, and iteration scans the slots in ascending order, so for
distinct keys below 8 (the only case used here, collision-free) the
keys come out in slot order — independent of insertion order. -/
def pyDictIterKeys (keys : List Nat) : List Nat :=
  (List.range 8).filter (fun slot => keys.contains slot)

/-- QueryMunger.computePartMapQuery: parse with onlyStatic as the only
whereExpAction (tableAction is empty) and parseAll=True, then render
"SELECT chunkid,subchunkid FROM partmap %s;" % flatten(t.where). -/
def computePartMapQuery (query : String) : Option String :=
  match pSimpleSQL onlyStatic (fuelFor query) (initState query) with
  | none => none
  | some (_, whereVal, st) =>
    if (skipWS st).rest.isEmpty then
      some ("SELECT chunkid,subchunkid FROM partmap " ++ flattenList whereVal ++ ";")
    else none

/-- First-seen-order key sequence of a list: the order in which chunk
ids first appear in the input (the order the claim asserts of the
returned dict's keys). -/
def firstSeenKeys (l : List Nat) : List Nat :=
  l.foldl (fun ks c => if ks.contains c then ks else ks ++ [c]) []

/-- No tableName token in the tree spells "object" case-insensitively. -/
def noObjTok : Tok → Bool
  | .str _ => true
  | .tbl ls => ls.all (fun t => !(upStr t == "OBJECT"))
  | .nil => true
  | .cons a b => noObjTok a && noObjTok b
  | .grp c => noObjTok c

/-- Invariant of whereExpression elements: a condition element is either
the TRUE sentinel, flattens to a string containing a space (every parsed
leaf has at least two tokens, every parenthesised condition has its
parentheses), or is one of the AND/OR conjunction tokens. -/
def condInv (t : Tok) : Prop :=
  t = grpL [Tok.str "TRUE"] ∨ ' ' ∈ (flattenTok t).data ∨
    t = Tok.str "and" ∨ t = Tok.str "or"

/-! ### Helper lemmas -/

/-- An appended space stays visible in the character data. -/
theorem mem_space_append (s1 s2 : String) : ' ' ∈ (s1 ++ " " ++ s2).data := by
  simp [String.data_append]

/-- The flattening of a chain of two or more elements contains a space. -/
theorem flatten_chain_two (a b : Tok) (rest : List Tok) :
    ' ' ∈ (flattenTok (listToChain (a :: b :: rest))).data := by
  show ' ' ∈ (flattenTok (Tok.cons a (Tok.cons b (listToChain rest)))).data
  rw [show flattenTok (Tok.cons a (Tok.cons b (listToChain rest))) =
      flattenTok a ++ " " ++ flattenTok (Tok.cons b (listToChain rest)) from rfl]
  exact mem_space_append _ _

/-- Destructor for Option alternatives. -/
theorem orElse_eq_some {α : Type} {a b : Option α} {x : α}
    (h : (a <|> b) = some x) : a = some x ∨ b = some x := by
  cases a with
  | none =>
    right
    simpa [HOrElse.hOrElse, OrElse.orElse, Option.orElse] using h
  | some v =>
    left
    simpa [HOrElse.hOrElse, OrElse.orElse, Option.orElse] using h

/-- replaceObj leaves a token list without "object" unchanged. -/
theorem replaceObjHook_id (ls : List String) (h : ∀ x ∈ ls, (upStr x == "OBJECT") = false) :
    replaceObjHook ls = ls := by
  unfold replaceObjHook
  induction ls with
  | nil => rfl
  | cons x xs ih =>
    simp only [List.map_cons, List.cons.injEq]
    refine ⟨?_, ih (fun y hy => h y (by simp [hy]))⟩
    rw [h x (by simp)]
    simp

/-- replaceObj leaves a tree with no "object" table token unchanged. -/
theorem applyTbl_id_of_noObj : ∀ t, noObjTok t = true → applyTbl replaceObjHook t = t := by
  intro t
  induction t with
  | str s => intro _; rfl
  | tbl ls =>
    intro h
    simp only [noObjTok, List.all_eq_true] at h
    simp only [applyTbl, Tok.tbl.injEq]
    refine replaceObjHook_id ls (fun x hx => ?_)
    have hx2 := h x hx
    cases hbe : (upStr x == "OBJECT") with
    | false => rfl
    | true => rw [hbe] at hx2; simp at hx2
  | nil => intro _; rfl
  | cons a b iha ihb =>
    intro h
    simp only [noObjTok, Bool.and_eq_true] at h
    simp [applyTbl, iha h.1, ihb h.2]
  | grp c ihc =>
    intro h
    simp only [noObjTok] at h
    simp [applyTbl, ihc h]

/-- scWhere only ever copies elements of its input (or of the running
accumulator) into its output. -/
theorem scWhereGo_mem (tok : List Tok) : ∀ (f i : Nat) (acc out : List Tok),
    scWhereGo tok f i acc = some out → ∀ t ∈ out, t ∈ acc ∨ t ∈ tok := by
  intro f
  induction f with
  | zero => intro i acc out h; cases h
  | succ f ih =>
    intro i acc out h t ht
    rw [scWhereGo] at h
    by_cases hi : i < tok.length
    · rw [dif_pos hi] at h
      have hmem : tok.get ⟨i, hi⟩ ∈ tok := tok.get_mem _ _
      have hacc : ∀ out2, scWhereGo tok f (i + 1) (acc ++ [tok.get ⟨i, hi⟩]) = some out2 →
          t ∈ out2 → t ∈ acc ∨ t ∈ tok := by
        intro out2 h2 ht2
        rcases ih (i + 1) _ out2 h2 t ht2 with hl | hr
        · rcases List.mem_append.mp hl with h3 | h3
          · exact Or.inl h3
          · simp only [List.mem_singleton] at h3
            subst h3
            exact Or.inr hmem
        · exact Or.inr hr
      by_cases htr : isTrueTok (tok.get ⟨i, hi⟩) = true
      · rw [if_pos htr] at h
        by_cases h2 : i + 1 < tok.length
        · rw [dif_pos h2] at h
          by_cases hand : tokUpperIs "AND" (tok.get ⟨i + 1, h2⟩) = true
          · rw [if_pos hand] at h
            rcases ih (i + 2) acc out h t ht with hl | hr
            · exact Or.inl hl
            · exact Or.inr hr
          · rw [if_neg hand] at h
            cases hg : tok.get? (i + i) with
            | none => rw [hg] at h; cases h
            | some u =>
              rw [hg] at h
              dsimp only at h
              by_cases hor : tokUpperIs "OR" u = true
              · rw [if_pos hor] at h
                injection h with h3
                subst h3
                exact Or.inl ht
              · rw [if_neg hor] at h
                exact hacc out h ht
        · rw [dif_neg h2] at h
          exact hacc out h ht
      · rw [if_neg htr] at h
        exact hacc out h ht
    · rw [dif_neg hi] at h
      injection h with h3
      subst h3
      exact Or.inl ht

/-- scWhere's output elements come from its input. -/
theorem scWhere_mem (tok out : List Tok) (h : scWhere tok = some out) :
    ∀ t ∈ out, t ∈ tok := by
  intro t ht
  rcases scWhereGo_mem tok (tok.length + 1) 0 [] out h t ht with hl | hr
  · cases hl
  · exact hr

/-- Every alternative of the flat where-leaf yields at least two tokens
(column and operator, plus values or parentheses). -/
theorem runP_flatRaw_len (wh : List Tok → Option (List Tok)) :
    ∀ (n : Nat) (st : PState) (acc ts b : List Tok) (st' : PState),
      runP wh n .flatRaw st acc = some (ts, b, st') → 2 ≤ ts.length := by
  intro n st acc ts b st' h
  match n with
  | 0 => cases h
  | n + 1 =>
    rw [runP] at h
    rcases orElse_eq_some h with h1 | h
    · simp only [bind, Option.bind_eq_some, pure, Option.some.injEq, Prod.mk.injEq] at h1
      obtain ⟨⟨c, st1⟩, hc, ⟨op, st2⟩, hop, ⟨v, st3⟩, hv, hts, hb, hst⟩ := h1
      subst hts
      simp
    · rcases orElse_eq_some h with h2 | h
      · simp only [bind, Option.bind_eq_some, pure, Option.some.injEq, Prod.mk.injEq] at h2
        obtain ⟨⟨c, st1⟩, hc, ⟨i2, st2⟩, hin, ⟨l3, st3⟩, hl, ⟨v, st4⟩, hv,
          ⟨r5, st5⟩, hr, hts, hb, hst⟩ := h2
        subst hts
        simp only [List.length_append, List.length_cons]
        omega
      · rcases orElse_eq_some h with h3 | h4
        · simp only [bind, Option.bind_eq_some, pure, Option.some.injEq, Prod.mk.injEq] at h3
          obtain ⟨⟨c, st1⟩, hc, ⟨i2, st2⟩, hin, ⟨l3, st3⟩, hl, ⟨ts0, wv0, st4⟩, hstmt,
            ⟨r5, st5⟩, hr, hts, hb, hst⟩ := h3
          subst hts
          simp only [List.length_append, List.length_cons]
          omega
        · simp only [bind, Option.bind_eq_some, pure, Option.some.injEq, Prod.mk.injEq] at h4
          obtain ⟨⟨c, st1⟩, hc, ⟨b2, st2⟩, hbw, ⟨lo, st3⟩, hlo, ⟨a4, st4⟩, ha,
            ⟨hi5, st5⟩, hhi, hts, hb, hst⟩ := h4
          subst hts
          simp

/-- lookupA after one addPair step. -/
theorem lookupA_addPair (d : List (Nat × List Nat)) (k s c : Nat) :
    lookupA (addPair d k s) c =
      if k == c then some ((lookupA d c).getD [] ++ [s]) else lookupA d c := by
  induction d with
  | nil =>
    simp only [addPair, lookupA]
    split <;> rfl
  | cons p rest ih =>
    obtain ⟨k2, l⟩ := p
    simp only [addPair]
    by_cases h2 : (k2 == k) = true
    · have hk : k2 = k := eq_of_beq h2
      subst hk
      simp only [h2, if_true, lookupA]
      by_cases hc : (k2 == c) = true
      · simp [hc]
      · simp [hc, Bool.of_not_eq_true hc]
    · simp only [Bool.of_not_eq_true h2, Bool.false_eq_true, if_false, lookupA]
      by_cases hc : (k2 == c) = true
      · have hkc : k2 = c := eq_of_beq hc
        have : (k == c) = false := by
          cases hke : (k == c) with
          | false => rfl
          | true =>
            have : k = c := eq_of_beq hke
            subst this
            subst hkc
            simp at h2
        simp [hc, this]
      · simp only [hc, Bool.false_eq_true, if_false]
        rw [ih]

/-- No pair matches the key: the per-key extraction is empty. -/
theorem filterMap_eq_nil_of_no_match (c : Nat) :
    ∀ pairs : List (Nat × Nat), pairs.any (fun p => p.1 == c) = false →
      pairs.filterMap (fun p => if p.1 == c then some p.2 else none) = [] := by
  intro pairs
  induction pairs with
  | nil => intro _; rfl
  | cons p rest ih =>
    intro h
    simp only [List.any_cons, Bool.or_eq_false_iff] at h
    simp only [List.filterMap_cons, h.1, Bool.false_eq_true, if_false]
    exact ih h.2

/-- lookupA on the running fold that builds the PartitionMapping. -/
theorem lookupA_foldl_addPair (c : Nat) :
    ∀ (pairs : List (Nat × Nat)) (d : List (Nat × List Nat)),
      lookupA (pairs.foldl (fun d p => addPair d p.1 p.2) d) c =
        if pairs.any (fun p => p.1 == c) then
          some ((lookupA d c).getD [] ++
            pairs.filterMap (fun p => if p.1 == c then some p.2 else none))
        else lookupA d c := by
  intro pairs
  induction pairs with
  | nil => intro d; simp
  | cons p rest ih =>
    intro d
    obtain ⟨k, s⟩ := p
    simp only [List.foldl_cons, List.any_cons, List.filterMap_cons]
    rw [ih]
    by_cases hk : (k == c) = true
    · simp only [hk, Bool.true_or, if_true]
      rw [lookupA_addPair]
      simp only [hk, if_true]
      by_cases hr : rest.any (fun p => p.1 == c) = true
      · simp [hr, List.append_assoc]
      · rw [Bool.of_not_eq_true hr]
        simp only [Bool.false_eq_true, if_false]
        rw [filterMap_eq_nil_of_no_match c rest (Bool.of_not_eq_true hr)]
    · rw [Bool.of_not_eq_true hk]
      simp only [Bool.false_or, Bool.false_eq_true, if_false]
      rw [lookupA_addPair]
      simp only [Bool.of_not_eq_true hk, Bool.false_eq_true, if_false]

/-- The lookup characterization of collectSubChunkTuples: a chunk maps
to exactly its subchunk ids, in input order. -/
theorem lookupA_collect (pairs : List (Nat × Nat)) (c : Nat) :
    lookupA (collectSubChunkTuples pairs) c =
      if pairs.any (fun p => p.1 == c) then
        some (pairs.filterMap (fun p => if p.1 == c then some p.2 else none))
      else none := by
  unfold collectSubChunkTuples
  rw [lookupA_foldl_addPair]
  rfl

/-- The filterMap extracting one chunk's subchunks has no duplicates when
the input pairs are distinct. -/
theorem filterMap_snd_nodup (c : Nat) :
    ∀ pairs : List (Nat × Nat), pairs.Nodup →
      (pairs.filterMap (fun p => if p.1 == c then some p.2 else none)).Nodup := by
  intro pairs
  induction pairs with
  | nil => intro _; simp
  | cons p rest ih =>
    intro h
    rw [List.nodup_cons] at h
    simp only [List.filterMap_cons]
    by_cases hk : (p.1 == c) = true
    · simp only [hk, if_true]
      rw [List.nodup_cons]
      refine ⟨?_, ih h.2⟩
      intro hmem
      rw [List.mem_filterMap] at hmem
      obtain ⟨q, hq, hqe⟩ := hmem
      by_cases hq1 : (q.1 == c) = true
      · rw [hq1, if_pos rfl] at hqe
        have hq2 : q.2 = p.2 := by
          injection hqe
        have hpc : p.1 = c := eq_of_beq hk
        have hqc : q.1 = c := eq_of_beq hq1
        have : q = p := by
          obtain ⟨q1, q2⟩ := q
          obtain ⟨p1, p2⟩ := p
          simp only at hq2 hpc hqc
          simp [hq2, hpc, hqc]
        exact h.1 (this ▸ hq)
      · rw [Bool.of_not_eq_true hq1] at hqe
        simp at hqe
    · rw [Bool.of_not_eq_true hk]
      simp only [Bool.false_eq_true, if_false]
      exact ih h.2

/-- applyTblL is the identity on a token sequence without "object". -/
theorem applyTblL_id_of_noObj (toks : List Tok) (h : toks.all noObjTok = true) :
    applyTblL replaceObjHook toks = toks := by
  simp only [List.all_eq_true] at h
  unfold applyTblL
  induction toks with
  | nil => rfl
  | cons t ts ih =>
    simp only [List.map_cons, List.cons.injEq]
    exact ⟨applyTbl_id_of_noObj t (h t (by simp)),
      ih (fun x hx => h x (by simp [hx]))⟩

/-- A '$'-free character list passes through Template.substitute
unchanged (no placeholder is scanned, so the mapping is never consulted). -/
theorem substTemplate_no_dollar (a b : String) :
    ∀ (cs : List Char) (fuel : Nat), cs.length < fuel →
      (∀ c ∈ cs, c ≠ '$') → substTemplate a b fuel cs = some cs := by
  intro cs
  induction cs with
  | nil =>
    intro fuel h _
    match fuel, h with
    | n + 1, _ => simp [substTemplate]
  | cons c cs ih =>
    intro fuel h hall
    match fuel, h with
    | n + 1, h =>
      have hc : (c == '$') = false := by
        simp only [beq_eq_false_iff_ne]
        exact hall c (by simp)
      simp only [substTemplate, hc, Bool.false_eq_true, if_false]
      rw [ih n (by simpa using Nat.lt_of_succ_lt_succ h)
        (fun x hx => hall x (by simp [hx]))]
      rfl

/-- mapM of a constant-successful function. -/
theorem mapM_const_some (tmpl : String) (f : Nat → Option String)
    (hf : ∀ x, f x = some tmpl) :
    ∀ l : List Nat, l.mapM f = some (l.map fun _ => tmpl) := by
  intro l
  induction l with
  | nil => rfl
  | cons x xs ih =>
    rw [List.mapM_cons, hf, ih]
    rfl

/-- computeChunkQuery unfolded on a successful parse whose flattened,
rewritten template contains no dollar character. -/
theorem computeChunkQuery_of_parse (chunk : Nat) (sl : List Nat) (q : String)
    (toks wv : List Tok) (st : PState)
    (hp : pSimpleSQL idWhereHook (fuelFor q) (initState q) = some (toks, wv, st))
    (tmpl : String)
    (ht : flattenList (applyTblL replaceObjHook toks) ++ ";" = tmpl)
    (hnd : ∀ c ∈ tmpl.data, c ≠ '$') :
    computeChunkQuery chunk sl q =
      some (joinNl (("-- SUBCHUNKS:" ++ joinComma (sl.map toString)) ::
        sl.map (fun _ => tmpl))) := by
  have hsub : ∀ s : Nat, substituteFor chunk s tmpl = some tmpl := by
    intro s
    unfold substituteFor
    rw [substTemplate_no_dollar _ _ tmpl.data (tmpl.length + 1)
      (by
        have hl : tmpl.length = tmpl.data.length := rfl
        omega) hnd]
    rfl
  unfold computeChunkQuery
  rw [hp]
  simp only [ht]
  rw [mapM_const_some tmpl _ hsub sl]

/-- Decoding inverts encoding of Group contents. -/
theorem chainToList_listToChain : ∀ l : List Tok, chainToList (listToChain l) = l := by
  intro l
  induction l with
  | nil => rfl
  | cons t rest ih => simp [listToChain, chainToList, ih]

/-- condElems is the identity on a list of plain string tokens. -/
theorem condElems_map_str : ∀ ws : List String,
    condElems (ws.map Tok.str) = ws.map Tok.str := by
  intro ws
  induction ws with
  | nil => rfl
  | cons w rest ih => simp [condElems, ih]

/-- pyFilter over plain string tokens never fails and keeps exactly the
matching tokens. -/
theorem pyFilter_map_str (pv : List String) : ∀ ws : List String,
    pyFilter (partMapCares pv) (ws.map Tok.str) =
      some ((ws.filter (fun w => pv.contains (upStr w))).map Tok.str) := by
  intro ws
  induction ws with
  | nil => rfl
  | cons w rest ih =>
    simp only [List.map_cons, pyFilter, partMapCares, ih, List.filter_cons]
    by_cases hw : upStr w ∈ pv
    · simp [hw]
    · simp [hw]

/-- A filtered list is empty exactly when no element matches. -/
theorem filter_isEmpty_eq_not_any (p : String → Bool) : ∀ ws : List String,
    (ws.filter p).isEmpty = !(ws.any p) := by
  intro ws
  induction ws with
  | nil => rfl
  | cons w rest ih =>
    simp only [List.filter_cons, List.any_cons]
    by_cases hw : p w = true
    · simp [hw]
    · simp [Bool.of_not_eq_true hw, ih]

/-- Mapping Tok.str preserves emptiness. -/
theorem map_str_isEmpty : ∀ l : List String, ((l.map Tok.str).isEmpty) = l.isEmpty := by
  intro l
  cases l <;> rfl

/-- A Group element stays a Group element under condElems. -/
theorem grp_mem_condElems (g : Tok) : ∀ ts : List Tok,
    Tok.grp g ∈ ts → Tok.grp g ∈ condElems ts := by
  intro ts
  induction ts with
  | nil => intro h; cases h
  | cons t rest ih =>
    intro h
    rcases List.mem_cons.mp h with he | hm
    · subst he
      simp [condElems]
    · cases t with
      | tbl ls =>
        simp only [condElems, List.mem_append]
        exact Or.inr (ih hm)
      | str s => exact List.mem_cons_of_mem _ (ih hm)
      | nil => exact List.mem_cons_of_mem _ (ih hm)
      | cons a b => exact List.mem_cons_of_mem _ (ih hm)
      | grp c => exact List.mem_cons_of_mem _ (ih hm)

/-- pyFilter aborts (AttributeError) as soon as the list contains a
Group element. -/
theorem pyFilter_none_of_mem_grp (pv : List String) (g : Tok) : ∀ l : List Tok,
    Tok.grp g ∈ l → pyFilter (partMapCares pv) l = none := by
  intro l
  induction l with
  | nil => intro h; cases h
  | cons t rest ih =>
    intro h
    rcases List.mem_cons.mp h with he | hm
    · subst he
      simp [pyFilter, partMapCares]
    · have hr := ih hm
      cases hpt : partMapCares pv t <;> simp [pyFilter, hpt, hr]

/-- onlyStatic either replaces the grouped leaf by the TRUE string or
returns it unchanged (when it does not raise). -/
theorem onlyStatic_hook_shape : ∀ (x out : List Tok),
    onlyStatic [grpL x] = some out → out = [Tok.str "TRUE"] ∨ out = [grpL x] := by
  intro x out h
  have h2 : onlyStaticH pVariables [Tok.grp (listToChain x)] = some out := h
  rw [onlyStaticH] at h2
  cases hf : pyFilter (partMapCares pVariables) (condElems (chainToList (listToChain x))) with
  | none => rw [hf] at h2; cases h2
  | some kept =>
    rw [hf] at h2
    dsimp only at h2
    by_cases he : kept.isEmpty = true
    · rw [if_pos he] at h2
      left
      injection h2 with h3
      exact h3.symm
    · rw [if_neg he] at h2
      right
      injection h2 with h3
      exact h3.symm

/-- The identity hook trivially has the onlyStatic shape. -/
theorem idWhereHook_shape : ∀ (x out : List Tok),
    idWhereHook [grpL x] = some out → out = [Tok.str "TRUE"] ∨ out = [grpL x] := by
  intro x out h
  right
  injection h with h2
  exact h2.symm

/-- Shape invariants of the recursive productions, for any where-leaf
hook that either replaces the grouped leaf by TRUE or keeps it: a flat
leaf is the TRUE string or a kept group of at least two tokens; a
whereCondition is one element satisfying condInv; the chain loop and a
whereExpression only produce condInv elements. -/
theorem runP_inv (wh : List Tok → Option (List Tok))
    (hwh : ∀ x out, wh [grpL x] = some out → out = [Tok.str "TRUE"] ∨ out = [grpL x]) :
    ∀ n : Nat,
      (∀ st acc ts b st', runP wh n .flat st acc = some (ts, b, st') →
        ts = [Tok.str "TRUE"] ∨ ∃ ws, ts = [grpL ws] ∧ 2 ≤ ws.length)
      ∧ (∀ st acc ts b st', runP wh n .cond st acc = some (ts, b, st') →
        ∃ c, ts = [c] ∧ condInv c)
      ∧ (∀ st acc ts b st', runP wh n .chain st acc = some (ts, b, st') →
        (∀ t ∈ acc, condInv t) → ∀ t ∈ ts, condInv t)
      ∧ (∀ st acc ts b st', runP wh n .expr st acc = some (ts, b, st') →
        ∀ t ∈ ts, condInv t) := by
  intro n
  induction n with
  | zero =>
    refine ⟨?_, ?_, ?_, ?_⟩ <;> (intro st acc ts b st' h; cases h)
  | succ n ih =>
    obtain ⟨ihflat, ihcond, ihchain, ihexpr⟩ := ih
    have hconj : ∀ kw, kw = "and" ∨ kw = "or" → condInv (Tok.str kw) := by
      intro kw hkw
      rcases hkw with h | h <;> subst h
      · exact Or.inr (Or.inr (Or.inl rfl))
      · exact Or.inr (Or.inr (Or.inr rfl))
    refine ⟨?_, ?_, ?_, ?_⟩
    · -- flat
      intro st acc ts b st' h
      rw [runP] at h
      simp only [bind, Option.bind_eq_some, pure, Option.some.injEq, Prod.mk.injEq] at h
      obtain ⟨⟨ts0, b0, st1⟩, hraw, hooked, hwhk, hts, hb, hst⟩ := h
      subst hts
      rcases hwh ts0 hooked hwhk with h1 | h1
      · left; rw [h1]
      · right
        exact ⟨ts0, by rw [h1], runP_flatRaw_len wh n st [] ts0 b0 st1 hraw⟩
    · -- cond
      intro st acc ts b st' h
      rw [runP] at h
      cases hf : runP wh n .flat st [] with
      | some r =>
        obtain ⟨ts0, b0, st1⟩ := r
        rw [hf] at h
        dsimp only at h
        simp only [Option.some.injEq, Prod.mk.injEq] at h
        obtain ⟨hts, hb, hst⟩ := h
        refine ⟨grpL ts0, hts.symm, ?_⟩
        rcases ihflat st [] ts0 b0 st1 hf with h1 | ⟨ws, h1, hlen⟩
        · subst h1
          exact Or.inl rfl
        · subst h1
          right; left
          rcases ws with _ | ⟨w1, _ | ⟨w2, rest⟩⟩
          · simp at hlen
          · simp at hlen
          · exact flatten_chain_two w1 w2 rest
      | none =>
        rw [hf] at h
        dsimp only at h
        simp only [bind, Option.bind_eq_some, pure, Option.some.injEq, Prod.mk.injEq] at h
        obtain ⟨⟨l1, st1⟩, hl1, ⟨toks, b2, st2⟩, hexp, ⟨l3, st3⟩, hl3, hts, hb, hst⟩ := h
        refine ⟨grpL (Tok.str "(" :: toks ++ [Tok.str ")"]), hts.symm, ?_⟩
        right; left
        obtain ⟨x, xs, hxx⟩ :
            ∃ x xs, Tok.str "(" :: toks ++ [Tok.str ")"] = Tok.str "(" :: x :: xs := by
          cases toks with
          | nil => exact ⟨Tok.str ")", [], rfl⟩
          | cons t1 t2 => exact ⟨t1, t2 ++ [Tok.str ")"], rfl⟩
        rw [hxx]
        exact flatten_chain_two (Tok.str "(") x xs
    · -- chain
      intro st acc ts b st' h hacc
      rw [runP] at h
      have haccStep : ∀ (kw : String), kw = "and" ∨ kw = "or" →
          ∀ (toks : List Tok) (st1 : PState) (b2 : List Tok) (st2 : PState),
          runP wh n .expr st1 [] = some (toks, b2, st2) →
          ∀ t ∈ acc ++ (Tok.str kw :: toks), condInv t := by
        intro kw hkw toks st1 b2 st2 hexp t ht
        rcases List.mem_append.mp ht with h1 | h1
        · exact hacc t h1
        · rcases List.mem_cons.mp h1 with h2 | h2
          · subst h2; exact hconj kw hkw
          · exact ihexpr st1 [] toks b2 st2 hexp t h2
      cases hand : pKeyword "and" st with
      | some r =>
        obtain ⟨u, st1⟩ := r
        rw [hand] at h
        dsimp only at h
        cases hexp : runP wh n .expr st1 [] with
        | some r2 =>
          obtain ⟨toks, b2, st2⟩ := r2
          rw [hexp] at h
          dsimp only at h
          exact ihchain st2 _ ts b st' h
            (haccStep "and" (Or.inl rfl) toks st1 b2 st2 hexp)
        | none =>
          rw [hexp] at h
          dsimp only at h
          cases hor : pKeyword "or" st with
          | some r3 =>
            obtain ⟨u2, st1b⟩ := r3
            rw [hor] at h
            dsimp only at h
            cases hexp2 : runP wh n .expr st1b [] with
            | some r4 =>
              obtain ⟨toks, b2, st2⟩ := r4
              rw [hexp2] at h
              dsimp only at h
              exact ihchain st2 _ ts b st' h
                (haccStep "or" (Or.inr rfl) toks st1b b2 st2 hexp2)
            | none =>
              rw [hexp2] at h
              dsimp only at h
              simp only [Option.some.injEq, Prod.mk.injEq] at h
              obtain ⟨hts, hb, hst⟩ := h
              subst hts
              exact hacc
          | none =>
            rw [hor] at h
            dsimp only at h
            simp only [Option.some.injEq, Prod.mk.injEq] at h
            obtain ⟨hts, hb, hst⟩ := h
            subst hts
            exact hacc
      | none =>
        rw [hand] at h
        dsimp only at h
        cases hor : pKeyword "or" st with
        | some r3 =>
          obtain ⟨u2, st1b⟩ := r3
          rw [hor] at h
          dsimp only at h
          cases hexp2 : runP wh n .expr st1b [] with
          | some r4 =>
            obtain ⟨toks, b2, st2⟩ := r4
            rw [hexp2] at h
            dsimp only at h
            exact ihchain st2 _ ts b st' h
              (haccStep "or" (Or.inr rfl) toks st1b b2 st2 hexp2)
          | none =>
            rw [hexp2] at h
            dsimp only at h
            simp only [Option.some.injEq, Prod.mk.injEq] at h
            obtain ⟨hts, hb, hst⟩ := h
            subst hts
            exact hacc
        | none =>
          rw [hor] at h
          dsimp only at h
          simp only [Option.some.injEq, Prod.mk.injEq] at h
          obtain ⟨hts, hb, hst⟩ := h
          subst hts
          exact hacc
    · -- expr
      intro st acc ts b st' h
      rw [runP] at h
      simp only [bind, Option.bind_eq_some, pure, Option.some.injEq, Prod.mk.injEq] at h
      obtain ⟨⟨cs, b1, st1⟩, hcond, ⟨chainToks, b2, st2⟩, hchain, reduced, hsc,
        hts, hb, hst⟩ := h
      subst hts
      intro t ht
      have hmem := scWhere_mem (cs ++ chainToks) reduced hsc t ht
      rcases List.mem_append.mp hmem with h1 | h1
      · obtain ⟨c, hcs, hci⟩ := ihcond st [] cs b1 st1 hcond
        subst hcs
        rcases List.mem_singleton.mp h1 with rfl
        exact hci
      · exact ihchain st1 [] chainToks b2 st2 hchain (by intro t2 ht2; cases ht2) t h1

/-- Shape of a whereClause contribution: either dropped by collapseWhere
(its first condition was the TRUE marker) or a "where" group headed by a
non-marker condition. -/
theorem runP_clause_shape (wh : List Tok → Option (List Tok))
    (hwh : ∀ x out, wh [grpL x] = some out → out = [Tok.str "TRUE"] ∨ out = [grpL x])
    (n : Nat) (st : PState) (acc cl b : List Tok) (st' : PState)
    (h : runP wh n .clause st acc = some (cl, b, st')) :
    cl = [] ∨ ∃ c0 rest2, cl = [grpL (Tok.str "where" :: c0 :: rest2)] ∧
      condInv c0 ∧ c0 ≠ grpL [Tok.str "TRUE"] ∧ (∀ t ∈ rest2, condInv t) := by
  match n with
  | 0 => cases h
  | n + 1 =>
    rw [runP] at h
    simp only [bind, Option.bind_eq_some, pure, Option.some.injEq, Prod.mk.injEq] at h
    obtain ⟨⟨u, st1⟩, hkw, ⟨ets, b2, st2⟩, hexp, collapsed, hcol, hts, hb, hst⟩ := h
    subst hts
    have hall := (runP_inv wh hwh n).2.2.2 st1 [] ets b2 st2 hexp
    cases ets with
    | nil => cases hcol
    | cons c0 r =>
      rw [collapseWhere] at hcol
      by_cases hc : (c0 == grpL [Tok.str "TRUE"]) = true
      · rw [if_pos hc] at hcol
        left
        injection hcol with h2
        exact h2.symm
      · rw [if_neg hc] at hcol
        right
        injection hcol with h2
        refine ⟨c0, r, h2.symm, hall c0 (by simp), ?_, ?_⟩
        · intro he
          exact hc (by rw [he]; exact beq_self_eq_true _)
        · intro t ht2
          exact hall t (by simp [ht2])

/-- The whereClause contribution is passed through selectStmt unchanged
as the middle result component. -/
theorem runP_stmt_wv (wh : List Tok → Option (List Tok))
    (hwh : ∀ x out, wh [grpL x] = some out → out = [Tok.str "TRUE"] ∨ out = [grpL x])
    (n : Nat) (st : PState) (acc toks wv : List Tok) (st' : PState)
    (h : runP wh n .stmt st acc = some (toks, wv, st')) :
    wv = [] ∨ ∃ c0 rest2, wv = [grpL (Tok.str "where" :: c0 :: rest2)] ∧
      condInv c0 ∧ c0 ≠ grpL [Tok.str "TRUE"] ∧ (∀ t ∈ rest2, condInv t) := by
  match n with
  | 0 => cases h
  | n + 1 =>
    rw [runP] at h
    simp only [bind, Option.bind_eq_some, pure, Option.some.injEq, Prod.mk.injEq] at h
    obtain ⟨⟨selToks, st1⟩, hsel, ⟨u, st2⟩, hfrom, ⟨tgrp, st3⟩, htab,
      ⟨wToks, b4, st4⟩, hcl, hts, hwv, hst⟩ := h
    subst hwv
    exact runP_clause_shape wh hwh n st3 [] wToks b4 st4 hcl

/-- The whereClause contribution survives pSimpleSQL. -/
theorem pSimpleSQL_wv (wh : List Tok → Option (List Tok))
    (hwh : ∀ x out, wh [grpL x] = some out → out = [Tok.str "TRUE"] ∨ out = [grpL x])
    (fuel : Nat) (st : PState) (toks wv : List Tok) (st' : PState)
    (h : pSimpleSQL wh fuel st = some (toks, wv, st')) :
    wv = [] ∨ ∃ c0 rest2, wv = [grpL (Tok.str "where" :: c0 :: rest2)] ∧
      condInv c0 ∧ c0 ≠ grpL [Tok.str "TRUE"] ∧ (∀ t ∈ rest2, condInv t) := by
  rw [pSimpleSQL] at h
  simp only [pSelectStmt, bind, Option.bind_eq_some, pure, Option.some.injEq,
    Prod.mk.injEq] at h
  obtain ⟨⟨toks0, wv0, st1⟩, hstmt, ⟨semi, st2⟩, hsemi, hts, hwv, hst⟩ := h
  subst hwv
  exact runP_stmt_wv wh hwh fuel st [] toks0 wv0 st1 hstmt

/-! ### Claim theorems -/

/-- C1: on Scenario A, computePartMapQuery emits the raw BETWEEN
predicates on ra and decl unchanged — convertBetween (and its local
wrappers disasm/convert/compose) is defined but never installed on
whereExpAction, so no 3-way overlap expansion against
ramin/ramax/declmin/declmax happens; the second conjunct records what the
unused convertBetween would produce for the ra leaf (lower-bound test
first, single outer parentheses). -/
theorem computePartMapQuery_scenarioA_no_expansion :
    computePartMapQuery
        "SELECT id FROM Object WHERE ra BETWEEN 2 AND 5 AND decl BETWEEN 1 AND 10;" =
      some "SELECT chunkid,subchunkid FROM partmap where ra between 2 and 5 and decl between 1 and 10;"
    ∧
    convertBetween ["ra", "between", "2", "and", "5"] =
      some "(2 between ramin and ramax OR 5 between ramin and ramax OR ramin between 2 and 5)" :=
  ⟨by decide, by decide⟩

/-- C5: on Scenario B the irrelevant leaf collapses to TRUE and the
TRUE-AND pair is eliminated, leaving exactly `where decl > 4` in the
rendered partition-map query, with no residual TRUE or AND token. -/
theorem computePartMapQuery_scenarioB :
    computePartMapQuery "SELECT id FROM Object WHERE blah < 3 AND decl > 4;" =
      some "SELECT chunkid,subchunkid FROM partmap where decl > 4;" := by decide

/-- C6 (counterexample): the grammar makes the WHERE clause mandatory
(whereClause is not wrapped in Optional), so Scenario C's statement
`SELECT * FROM Object;` raises a ParseException and computeChunkQuery
produces no batch at all. -/
theorem computeChunkQuery_scenarioC_requires_where :
    computeChunkQuery 12 [3, 7] "SELECT * FROM Object;" = none := by decide

/-- C6 (amended): with a WHERE clause added, chunk 12 and subchunks
[3, 7] produce the header `-- SUBCHUNKS:3, 7` (no space after the colon)
followed by one rewritten statement per subchunk referencing
Subchunks_3.Object_12_3 and Subchunks_7.Object_12_7; each statement is
the space-joined flattening of the parse (keywords lower-cased) and ends
with ` ;;` because the parsed semicolon token is flattened and another
";" is appended before templating. -/
theorem computeChunkQuery_scenarioC_amended :
    computeChunkQuery 12 [3, 7] "SELECT * FROM Object WHERE ra < 1;" =
      some ("-- SUBCHUNKS:3, 7\nselect * from Subchunks_3.Object_12_3 where ra < 1 ;;\nselect * from Subchunks_7.Object_12_7 where ra < 1 ;;") := by
  decide

/-- C4 (counterexample): a conjunction whose right operand reduced to
True is NOT reduced to the left operand — the rendered partition-map
query keeps a literal trailing `and TRUE` (scWhere only eliminates a
TRUE followed by AND, and scAnd/scOr are never attached). -/
theorem partmap_and_true_not_reduced :
    computePartMapQuery "SELECT id FROM Object where decl > 4 AND blah < 3;" =
      some "SELECT chunkid,subchunkid FROM partmap where decl > 4 and TRUE;"
    ∧
    ("SELECT chunkid,subchunkid FROM partmap where decl > 4 and TRUE;" : String) ≠
      "SELECT chunkid,subchunkid FROM partmap where decl > 4;" :=
  ⟨by decide, by decide⟩

/-- C9 (counterexample): a repeated input pair is appended twice —
duplicates in a per-chunk SubchunkList are possible by construction. -/
theorem collectSubChunkTuples_duplicates :
    collectSubChunkTuples [(1, 4), (1, 4)] = [(1, [4, 4])] ∧
    ¬ ([4, 4] : List Nat).Nodup :=
  ⟨by decide, by decide⟩

/-- C8 (amended): collectSubChunkTuples groups subchunk ids by chunk id.
Scenario D's mapping holds: chunk 1 maps to [4, 5], chunk 2 maps to [9],
and no other chunk id is a key.  In general each chunk maps to exactly
its subchunk ids in input order, and a chunk id is a key exactly when it
occurs in the input.  (These facts are independent of the dict's key
iteration order, which the Python 2 dict does not keep in first-seen
order — see the counterexample theorem.) -/
theorem collectSubChunkTuples_groups :
    (lookupA (collectSubChunkTuples [(1, 4), (1, 5), (2, 9)]) 1 = some [4, 5]
      ∧ lookupA (collectSubChunkTuples [(1, 4), (1, 5), (2, 9)]) 2 = some [9]
      ∧ ∀ c : Nat, (lookupA (collectSubChunkTuples [(1, 4), (1, 5), (2, 9)]) c).isSome =
          (c == 1 || c == 2))
    ∧
    (∀ (pairs : List (Nat × Nat)) (c : Nat),
      lookupA (collectSubChunkTuples pairs) c =
        if pairs.any (fun p => p.1 == c) then
          some (pairs.filterMap (fun p => if p.1 == c then some p.2 else none))
        else none) := by
  refine ⟨⟨by decide, by decide, ?_⟩, fun pairs c => lookupA_collect pairs c⟩
  intro c
  rw [lookupA_collect]
  by_cases h1 : c = 1
  · subst h1; decide
  · by_cases h2 : c = 2
    · subst h2; decide
    · have b1 : (c == 1) = false := by
        cases hb : (c == 1) with
        | false => rfl
        | true => exact absurd (eq_of_beq hb) h1
      have b2 : (c == 2) = false := by
        cases hb : (c == 2) with
        | false => rfl
        | true => exact absurd (eq_of_beq hb) h2
      have b1s : (1 == c) = false := by
        cases hb : (1 == c) with
        | false => rfl
        | true => exact absurd (eq_of_beq hb).symm h1
      have b2s : (2 == c) = false := by
        cases hb : (2 == c) with
        | false => rfl
        | true => exact absurd (eq_of_beq hb).symm h2
      simp [b1, b2, b1s, b2s]

/-- C8 (counterexample): the claim's first-seen key order is not what the
returned Python 2 dict iterates.  On input [(2, 9), (1, 4)] the chunk ids
are first seen in the order 2, 1, but the CPython 2 dict (small ints
hash to themselves; slots are scanned in ascending order) iterates its
keys as 1, 2. -/
theorem collectSubChunkTuples_key_order_not_first_seen :
    pyDictIterKeys ((collectSubChunkTuples [(2, 9), (1, 4)]).map Prod.fst) = [1, 2]
    ∧ firstSeenKeys ([(2, 9), (1, 4)].map Prod.fst) = [2, 1]
    ∧ ([1, 2] : List Nat) ≠ [2, 1] :=
  ⟨by decide, by decide, by decide⟩

/-- C9 (amended): when the input pairs are pairwise distinct, every
per-chunk SubchunkList is duplicate-free (a duplicate in a list would
come from the same (chunk, subchunk) pair appearing twice). -/
theorem collectSubChunkTuples_nodup_of_nodup (pairs : List (Nat × Nat)) (c : Nat)
    (l : List Nat) (hnd : pairs.Nodup)
    (hl : lookupA (collectSubChunkTuples pairs) c = some l) : l.Nodup := by
  unfold collectSubChunkTuples at hl
  rw [lookupA_foldl_addPair] at hl
  by_cases h : pairs.any (fun p => p.1 == c) = true
  · rw [if_pos h, Option.some_inj] at hl
    simp only [lookupA, Option.getD_none, List.nil_append] at hl
    rw [← hl]
    exact filterMap_snd_nodup c pairs hnd
  · rw [if_neg h] at hl
    exact absurd hl (by simp [lookupA])

/-- C9 witness: the amended statement applied to Scenario D's input. -/
theorem collectSubChunkTuples_nodup_witness : ([4, 5] : List Nat).Nodup :=
  collectSubChunkTuples_nodup_of_nodup [(1, 4), (1, 5), (2, 9)] 1 [4, 5]
    (by decide) (by decide)

/-- C3 (counterexample): a leaf on the qualified column `o1.ra` with
relevant set {RA, DECL} is REPLACED by TRUE — the dot-qualified token is
compared whole ("O1.RA" is not in the set), so the qualifier is not
ignored as the claim states. -/
theorem onlyStatic_qualified_column_replaced :
    onlyStatic [grpL [Tok.str "o1.ra", Tok.str "<", Tok.str "3"]] = some [Tok.str "TRUE"]
    ∧
    (some [Tok.str "TRUE"] : Option (List Tok)) ≠
      some [grpL [Tok.str "o1.ra", Tok.str "<", Tok.str "3"]] :=
  ⟨by decide, by decide⟩

/-- C2 (counterexample): with table `Foo` (never rewritten) the chunk
query generator succeeds and emits the un-rewritten statement — no
SubstitutionNotFoundError exists anywhere in the code, and substitution
is a silent no-op. -/
theorem computeChunkQuery_missing_table_silent :
    computeChunkQuery 12 [3] "SELECT id FROM Foo WHERE ra < 1;" =
      some "-- SUBCHUNKS:3\nselect id from Foo where ra < 1 ;;" := by decide

/-- C2 (amended): for every chunk id and subchunk list, computeChunkQuery
on a statement whose table is not the partitioned one silently emits a
batch of identical un-rewritten statements (one per subchunk) under the
usual header; it never fails. -/
theorem computeChunkQuery_foo_unrewritten (chunk : Nat) (sl : List Nat) :
    computeChunkQuery chunk sl "SELECT id FROM Foo WHERE ra < 1;" =
      some (joinNl (("-- SUBCHUNKS:" ++ joinComma (sl.map toString)) ::
        sl.map (fun _ => "select id from Foo where ra < 1 ;;"))) := by
  refine computeChunkQuery_of_parse chunk sl _
    [Tok.str "select", Tok.str "id", Tok.str "from", grpL [Tok.tbl ["Foo"]],
      grpL [Tok.str "where", grpL [grpL [Tok.str "ra", Tok.str "<", Tok.str "1"]]],
      Tok.str ";"]
    [grpL [Tok.str "where", grpL [grpL [Tok.str "ra", Tok.str "<", Tok.str "1"]]]]
    ⟨[], some ';'⟩ (by decide) "select id from Foo where ra < 1 ;;" (by decide)
    (by decide)

/-- C10 (counterexample): identifiers may contain `$` (Word body
alphanums + "_$"), and the flattened statement is pushed through
string.Template, so a parseable statement over table `a$b` — not
`object`, hence untouched by the rewrite — makes substitute raise
(KeyError) instead of emitting the statement unchanged. -/
theorem computeChunkQuery_dollar_identifier_fails :
    computeChunkQuery 12 [3] "select x from a$b where decl < 1;" = none := by decide

/-- C10 (amended): the rewriting step touches exactly the tableName
tokens (Tok.tbl) via replaceObj, which maps a token to the physical-shard
template iff it spells "object" case-insensitively; consequently, for
every parseable statement none of whose table tokens spells "object" and
whose flattened text is free of `$`, every emitted per-subchunk statement
is the flattened original statement with nothing rewritten, and no error
is raised. -/
theorem computeChunkQuery_rewrites_only_object (chunk : Nat) (sl : List Nat)
    (q : String) (toks wv : List Tok) (st : PState)
    (hp : pSimpleSQL idWhereHook (fuelFor q) (initState q) = some (toks, wv, st))
    (hobj : toks.all noObjTok = true)
    (hnd : ∀ c ∈ (flattenList toks ++ ";").data, c ≠ '$') :
    computeChunkQuery chunk sl q =
      some (joinNl (("-- SUBCHUNKS:" ++ joinComma (sl.map toString)) ::
        sl.map (fun _ => flattenList toks ++ ";"))) := by
  refine computeChunkQuery_of_parse chunk sl q toks wv st hp
    (flattenList toks ++ ";") ?_ hnd
  rw [applyTblL_id_of_noObj toks hobj]

/-- C10 witness: the amended statement applied to a concrete non-object
statement. -/
theorem computeChunkQuery_rewrites_only_object_witness :
    computeChunkQuery 5 [1, 2] "select y from Bar where decl < 9;" =
      some (joinNl (("-- SUBCHUNKS:" ++ joinComma ([1, 2].map toString)) ::
        [1, 2].map (fun _ =>
          flattenList
            [Tok.str "select", Tok.str "y", Tok.str "from", grpL [Tok.tbl ["Bar"]],
              grpL [Tok.str "where",
                grpL [grpL [Tok.str "decl", Tok.str "<", Tok.str "9"]]],
              Tok.str ";"] ++ ";"))) :=
  computeChunkQuery_rewrites_only_object 5 [1, 2] "select y from Bar where decl < 9;"
    [Tok.str "select", Tok.str "y", Tok.str "from", grpL [Tok.tbl ["Bar"]],
      grpL [Tok.str "where", grpL [grpL [Tok.str "decl", Tok.str "<", Tok.str "9"]]],
      Tok.str ";"]
    [grpL [Tok.str "where", grpL [grpL [Tok.str "decl", Tok.str "<", Tok.str "9"]]]]
    ⟨[], some ';'⟩ (by decide) (by decide) (by decide)

/-- C3 (amended): for a flat leaf of plain string tokens, the reducer
replaces the leaf by TRUE exactly when NO token of the leaf — column,
operator or right-hand values alike — matches the relevant set
(case-insensitively, whole token, a dot qualifier not stripped); and a
leaf containing a nested Group (an IN-subselect) makes the hook raise
(AttributeError in filter), failing the parse. -/
theorem onlyStaticH_replaces_iff :
    (∀ (pv : List String) (ws : List String),
      onlyStaticH pv [grpL (ws.map Tok.str)] =
        some (if ws.any (fun w => pv.contains (upStr w)) then [grpL (ws.map Tok.str)]
          else [Tok.str "TRUE"]))
    ∧
    (∀ (pv : List String) (ts : List Tok) (g : Tok), Tok.grp g ∈ ts →
      onlyStaticH pv [grpL ts] = none) := by
  constructor
  · intro pv ws
    show onlyStaticH pv [Tok.grp (listToChain (ws.map Tok.str))] = _
    simp only [onlyStaticH, chainToList_listToChain, condElems_map_str,
      pyFilter_map_str]
    rw [map_str_isEmpty, filter_isEmpty_eq_not_any]
    by_cases h : ws.any (fun w => pv.contains (upStr w)) = true
    · rw [if_neg (show ¬ ((!(ws.any fun w => pv.contains (upStr w))) = true) by
        rw [h]; decide), if_pos h]
      rfl
    · have hf : ws.any (fun w => pv.contains (upStr w)) = false :=
        Bool.of_not_eq_true h
      rw [if_pos (show (!(ws.any fun w => pv.contains (upStr w))) = true by
        rw [hf]; decide), if_neg h]
  · intro pv ts g hg
    show onlyStaticH pv [Tok.grp (listToChain ts)] = _
    simp only [onlyStaticH, chainToList_listToChain]
    rw [pyFilter_none_of_mem_grp pv g (condElems ts) (grp_mem_condElems g ts hg)]

/-- C3 witness: the amended statement instantiated — a leaf whose COLUMN
is irrelevant survives because its right-hand token spells a relevant
column, and an IN-subselect leaf (containing a Group) fails the hook. -/
theorem onlyStaticH_replaces_iff_witness :
    onlyStaticH ["RA", "DECL"] [grpL (["blah", "=", "decl"].map Tok.str)] =
      some [grpL (["blah", "=", "decl"].map Tok.str)]
    ∧
    onlyStaticH ["RA", "DECL"] [grpL [Tok.str "c", Tok.grp Tok.nil]] = none := by
  constructor
  · rw [onlyStaticH_replaces_iff.1 ["RA", "DECL"] ["blah", "=", "decl"]]
    decide
  · exact onlyStaticH_replaces_iff.2 ["RA", "DECL"]
      [Tok.str "c", Tok.grp Tok.nil] Tok.nil (by decide)

/-- C4 (amended): the parse-time reduction eliminates a True conjunct
only on the left — scWhere drops a TRUE marker followed by AND, and a
TRUE marker heading the top-level clause makes collapseWhere drop the
whole WHERE (subsuming Or(True, X) == True there) — but a conjunction
with True on the RIGHT is left as `X and TRUE` (the scAnd/scOr actions
implementing the full laws are defined yet never attached). -/
theorem scWhere_true_laws :
    (∀ x : Tok, scWhere [grpL [Tok.str "TRUE"], Tok.str "and", x] = some [x])
    ∧
    (∀ rest : List Tok, collapseWhere (grpL [Tok.str "TRUE"] :: rest) = some [])
    ∧
    (∀ x : Tok, isTrueTok x = false →
      scWhere [x, Tok.str "and", grpL [Tok.str "TRUE"]] =
        some [x, Tok.str "and", grpL [Tok.str "TRUE"]]) := by
  refine ⟨?_, ?_, ?_⟩
  · intro x
    cases hx : isTrueTok x <;>
      simp [scWhere, scWhereGo, hx, isTrueTok, tokUpperIs, upStr]
  · intro rest
    rfl
  · intro x hx
    simp only [isTrueTok, Bool.or_eq_false_iff, beq_eq_false_iff_ne] at hx
    simp only [scWhere, scWhereGo, isTrueTok, tokUpperIs, upStr]
    simp [hx.1, hx.2]
    intro hcontra
    exact absurd hcontra (by decide)

/-- C4 witness: the right-True conjunction stays un-reduced on a concrete
condition element. -/
theorem scWhere_true_laws_witness :
    scWhere [grpL [grpL [Tok.str "decl", Tok.str ">", Tok.str "4"]], Tok.str "and",
        grpL [Tok.str "TRUE"]] =
      some [grpL [grpL [Tok.str "decl", Tok.str ">", Tok.str "4"]], Tok.str "and",
        grpL [Tok.str "TRUE"]] :=
  scWhere_true_laws.2.2 (grpL [grpL [Tok.str "decl", Tok.str ">", Tok.str "4"]])
    (by decide)

/-- C7 (counterexample): the fixed template is
"SELECT chunkid,subchunkid FROM partmap %s;" — no space after the first
comma — so for a query whose whole where-tree reduces to True the output
is "SELECT chunkid,subchunkid FROM partmap ;", not the claim's
"SELECT chunkid, subchunkid FROM partmap ;". -/
theorem computePartMapQuery_template_spacing :
    computePartMapQuery "SELECT id FROM Object WHERE blah < 3;" =
      some "SELECT chunkid,subchunkid FROM partmap ;"
    ∧
    ("SELECT chunkid,subchunkid FROM partmap ;" : String) ≠
      "SELECT chunkid, subchunkid FROM partmap ;" :=
  ⟨by decide, by decide⟩

/-- C7 (amended): every successful computePartMapQuery is the single
string "SELECT chunkid,subchunkid FROM partmap " ++ w ++ ";", where w is
either empty (the whole where-tree reduced to the True marker and
collapseWhere dropped the clause) or a clause "where " ++ w2 whose body
w2 is never the bare token "TRUE". -/
theorem computePartMapQuery_shape (s r : String)
    (h : computePartMapQuery s = some r) :
    ∃ w, r = "SELECT chunkid,subchunkid FROM partmap " ++ w ++ ";" ∧
      (w = "" ∨ ∃ w2, w = "where " ++ w2 ∧ w2 ≠ "TRUE") := by
  rw [computePartMapQuery] at h
  cases hp : pSimpleSQL onlyStatic (fuelFor s) (initState s) with
  | none => rw [hp] at h; cases h
  | some res =>
    obtain ⟨toks, wv, st⟩ := res
    rw [hp] at h
    dsimp only at h
    by_cases hrest : (skipWS st).rest.isEmpty = true
    · rw [if_pos hrest] at h
      injection h with h2
      refine ⟨flattenList wv, h2.symm, ?_⟩
      rcases pSimpleSQL_wv onlyStatic onlyStatic_hook_shape _ _ _ _ _ hp with
        hnil | ⟨c0, rest2, hwv, hci, hne, hrest2⟩
      · rw [hnil]
        left
        rfl
      · right
        rw [hwv]
        refine ⟨flattenTok (listToChain (c0 :: rest2)), rfl, ?_⟩
        cases rest2 with
        | nil =>
          rcases hci with hm | hsp | hand | hor2
          · exact absurd hm hne
          · intro he
            have : ' ' ∈ (flattenTok (listToChain [c0])).data := by
              show ' ' ∈ (flattenTok (Tok.cons c0 Tok.nil)).data
              exact hsp
            rw [he] at this
            exact absurd this (by decide)
          · rw [hand]
            decide
          · rw [hor2]
            decide
        | cons d ds =>
          intro he
          have : ' ' ∈ (flattenTok (listToChain (c0 :: d :: ds))).data :=
            flatten_chain_two c0 d ds
          rw [he] at this
          exact absurd this (by decide)
    · rw [if_neg hrest] at h
      cases h

/-- C7 witness: the shape statement applied to Scenario B's query. -/
theorem computePartMapQuery_shape_witness :
    ∃ w, "SELECT chunkid,subchunkid FROM partmap where decl > 4;" =
        "SELECT chunkid,subchunkid FROM partmap " ++ w ++ ";" ∧
      (w = "" ∨ ∃ w2, w = "where " ++ w2 ∧ w2 ≠ "TRUE") :=
  computePartMapQuery_shape "SELECT id FROM Object WHERE blah < 3 AND decl > 4;"
    "SELECT chunkid,subchunkid FROM partmap where decl > 4;" (by decide)

end Sqlparser
